import Mathlib

/-!
Verification of the `target-parquet` Singer target.

Shallow embedding of the repository's core:
  * `src/target_parquet/helpers.py` — `flatten`, `flatten_schema`;
  * `src/target_parquet/__init__.py` — `producer`, `consumer`, `write_file`,
    `emit_state`, `persist_messages` (compression setup);
  * `src/target_parquet.py` — the legacy module's `flatten` (kept as
    `flatten_str` here, since the package module shadows it on import).

Python `dict`s are embedded as association lists with the usual CPython
semantics: assignment to an existing key updates it in place, assignment to a
fresh key appends, `pop` removes the key or fails with `KeyError`.  JSON
values are the inductive `JsonVal`; machine behaviour that raises in Python
(`KeyError`, `NameError`, `ValueError`, `jsonschema.ValidationError`) is
embedded with `Except`.
-/

namespace TargetParquet

mutual

/-- JSON value as parsed from a Singer message: the payload type of records.
Python dicts preserve insertion order, hence the member sequence
`JsonMembers`; lists are the element sequence `JsonElems` (mutual inductives
keep all recursion structural). -/
inductive JsonVal where
  | vInt : Int → JsonVal
  | vStr : String → JsonVal
  | vBool : Bool → JsonVal
  | vNull : JsonVal
  | vList : JsonElems → JsonVal
  | vObj : JsonMembers → JsonVal

/-- The elements of a JSON array. -/
inductive JsonElems where
  | nil : JsonElems
  | cons : JsonVal → JsonElems → JsonElems

/-- The ordered members of a JSON object. -/
inductive JsonMembers where
  | nil : JsonMembers
  | cons : String → JsonVal → JsonMembers → JsonMembers

end

/-- Builds `JsonMembers` from a list literal (readability helper). -/
def jm (l : List (String × JsonVal)) : JsonMembers :=
  l.foldr (fun p acc => .cons p.1 p.2 acc) .nil

/-- Builds `JsonElems` from a list literal (readability helper). -/
def je (l : List JsonVal) : JsonElems :=
  l.foldr (fun v acc => .cons v acc) .nil

/-- `d[k]` lookup on a Python dict (first matching key; dicts built through
`dictSet` keep keys unique). -/
def dictGet {α : Type} (k : String) : List (String × α) → Option α
  | [] => none
  | (k', v) :: rest => if k' = k then some v else dictGet k rest

/-- `d[k] = v` on a Python dict: update in place when the key exists,
append otherwise. -/
def dictSet {α : Type} (k : String) (v : α) (l : List (String × α)) :
    List (String × α) :=
  if (dictGet k l).isSome then
    l.map (fun p => if p.1 = k then (p.1, v) else p)
  else l ++ [(k, v)]

/-- `d.pop(k)`: the removed value together with the remaining dict, or
`none` for the `KeyError` case. -/
def dictPop {α : Type} (k : String) (l : List (String × α)) :
    Option (α × List (String × α)) :=
  match dictGet k l with
  | none => none
  | some v => some (v, l.filter (fun p => decide (p.1 ≠ k)))

/-- One step of Python's `dict(items)` constructor. -/
def pyDictIns {α : Type} (acc : List (String × α)) (kv : String × α) :
    List (String × α) :=
  if (dictGet kv.1 acc).isSome then
    acc.map (fun p => if p.1 = kv.1 then (p.1, kv.2) else p)
  else acc ++ [kv]

/-- Python's `dict(items)`: first-occurrence key order, last-write-wins
values. -/
def pyDict {α : Type} (items : List (String × α)) : List (String × α) :=
  items.foldl pyDictIns []

mutual

/-- Python `repr` of a JSON value (CPython rendering of the corresponding
`int`/`str`/`bool`/`None`/`list`/`dict`; string escaping beyond quoting is
not needed for the repository's inputs). -/
def pyRepr : JsonVal → String
  | .vInt n => toString n
  | .vStr s => "'" ++ s ++ "'"
  | .vBool b => if b then "True" else "False"
  | .vNull => "None"
  | .vList xs => "[" ++ pyReprElems xs ++ "]"
  | .vObj kvs => "\x7b" ++ pyReprObj kvs ++ "\x7d"

/-- Comma-separated `repr` of the elements of a Python list. -/
def pyReprElems : JsonElems → String
  | .nil => ""
  | .cons x .nil => pyRepr x
  | .cons x (.cons y rest) => pyRepr x ++ ", " ++ pyReprElems (.cons y rest)

/-- Comma-separated `repr` of the items of a Python dict. -/
def pyReprObj : JsonMembers → String
  | .nil => ""
  | .cons k v .nil => "'" ++ k ++ "': " ++ pyRepr v
  | .cons k v (.cons k' v' rest) =>
    "'" ++ k ++ "': " ++ pyRepr v ++ ", " ++ pyReprObj (.cons k' v' rest)

end

/-- Python `str` of a JSON value (`str` of a `str` is itself, everything
else coincides with `repr`). -/
def pyStr : JsonVal → String
  | .vStr s => s
  | v => pyRepr v

/-- `new_key = parent_key + sep + k if parent_key else k`, the key-joining
expression shared by `flatten`, `flatten_schema` and the legacy `flatten`
(Python truthiness: the empty parent key selects the bare key). -/
def new_key (parent_key sep k : String) : String :=
  if parent_key = "" then k else parent_key ++ sep ++ k

mutual

/-- The per-item branch of `flatten` (`helpers.py`, lines 36–39): a mapping
value is descended into, a list value hits the unbound name `json`
(`NameError`, embedded as `Except.error ()`), every other value is kept as a
leaf under the joined key. -/
def flattenVal (sep : String) (nk : String) : JsonVal →
    Except Unit (List (String × JsonVal))
  | .vObj kvs => flattenItems sep kvs nk
  | .vList _ => .error ()
  | leaf => .ok [(nk, leaf)]

/-- The item traversal of `flatten` from `src/target_parquet/helpers.py`
(lines 33–40): descend into mapping values, join keys with `sep`, keep other
values as leaves. -/
def flattenItems (sep : String) : JsonMembers → String →
    Except Unit (List (String × JsonVal))
  | .nil, _ => .ok []
  | .cons k v rest, parent_key =>
    (flattenVal sep (new_key parent_key sep k) v).bind fun head =>
    (flattenItems sep rest parent_key).map fun tail => head ++ tail

end

/-- `flatten(dictionary, parent_key="", sep="__")` from
`src/target_parquet/helpers.py`: the item traversal followed by
`dict(items)`. -/
def flatten (dictionary : JsonMembers) (parent_key : String := "")
    (sep : String := "__") : Except Unit (List (String × JsonVal)) :=
  (flattenItems sep dictionary parent_key).map pyDict

mutual

/-- The per-item branch of the legacy `flatten` from `src/target_parquet.py`
(line 85), which converts list values with `str(v)` instead of
`json.dumps(v)` and therefore never raises. -/
def flattenStrVal (sep : String) (nk : String) : JsonVal →
    List (String × JsonVal)
  | .vObj kvs => flattenStrItems sep kvs nk
  | .vList xs => [(nk, .vStr (pyStr (.vList xs)))]
  | leaf => [(nk, leaf)]

/-- The item traversal of the legacy `flatten` from `src/target_parquet.py`
(lines 79–86). -/
def flattenStrItems (sep : String) : JsonMembers → String →
    List (String × JsonVal)
  | .nil, _ => []
  | .cons k v rest, parent_key =>
    flattenStrVal sep (new_key parent_key sep k) v ++
    flattenStrItems sep rest parent_key

end

/-- Legacy `flatten(dictionary, parent_key='', sep='__')` from
`src/target_parquet.py`. -/
def flatten_str (dictionary : JsonMembers)
    (parent_key : String := "") (sep : String := "__") :
    List (String × JsonVal) :=
  pyDict (flattenStrItems sep dictionary parent_key)

mutual

/-- A JSON-Schema node as handled by `flatten_schema`: the `"type"` entry
(`none` when the key is absent) and the `"properties"` entry (defaulted to
empty; no claim exercises an object node without properties). -/
inductive SchemaNode where
  | mk (types : Option (List String)) (props : SchemaProps)

/-- The ordered `properties` mapping of a schema object node. -/
inductive SchemaProps where
  | nil : SchemaProps
  | cons : String → SchemaNode → SchemaProps → SchemaProps

end

/-- The `"type"` list of a schema node, defaulted like `v.get("type", [])`. -/
def SchemaNode.typesD : SchemaNode → List String
  | .mk ts _ => ts.getD []

/-- The `"properties"` of a schema node. -/
def SchemaNode.properties : SchemaNode → SchemaProps
  | .mk _ ps => ps

/-- Lookup in a schema `properties` mapping. -/
def schemaGet (k : String) : SchemaProps → Option SchemaNode
  | .nil => none
  | .cons k' node rest => if k' = k then some node else schemaGet k rest

/-- `flatten_schema(dictionary, parent_key="", sep="__")` from
`src/target_parquet/helpers.py` (lines 42–90): descend into nodes whose
`"type"` contains `"object"`, emit the joined key for every other node. -/
def flatten_schema (sep : String) : SchemaProps → String → List String
  | .nil, _ => []
  | .cons k (.mk ts props) rest, parent_key =>
    (if (ts.getD []).contains "object" then
       flatten_schema sep props (new_key parent_key sep k)
     else [new_key parent_key sep k]) ++ flatten_schema sep rest parent_key

mutual

/-- Structural conformance of one member value to its schema node: the value
is a nested mapping exactly when the node's `"type"` contains `"object"`. -/
def structConformsVal : JsonVal → SchemaNode → Bool
  | .vObj kvs, node =>
    (node.typesD).contains "object" && structConforms kvs node.properties
  | _, node => !(node.typesD).contains "object"

/-- Structural conformance of a record to a schema's `properties`: every key
of the record is declared, and a member value is a nested mapping exactly at
the nodes whose `"type"` contains `"object"`.  This is the hypothesis under
which the flatten/flatten_schema key-subset invariant actually holds (the
external validator is weaker: it accepts `null` at object-typed nodes and
undeclared keys). -/
def structConforms : JsonMembers → SchemaProps → Bool
  | .nil, _ => true
  | .cons k v rest, props =>
    (match schemaGet k props with
     | none => false
     | some node => structConformsVal v node) &&
    structConforms rest props

end

/-- Whether a Draft 4 primitive type name matches a JSON value. -/
def typeMatches (t : String) : JsonVal → Bool
  | .vNull => t == "null"
  | .vInt _ => t == "integer" || t == "number"
  | .vStr _ => t == "string"
  | .vBool _ => t == "boolean"
  | .vList _ => t == "array"
  | .vObj _ => t == "object"

mutual

/-- Modelled from the spec: the external JSON Schema validation engine
(`jsonschema.Draft4Validator`), which the spec treats as a black box
(`validate(schema, record) -> ok | violation`); the repository only calls it.
Embedded by the documented Draft 4 semantics of the fragment the repository
uses: a `"type"` keyword holding a list of primitive type names constrains
the instance's type, `"properties"` constrains only object instances and
only the keys it mentions, and an absent `additionalProperties` keyword is
permissive. -/
def draft4Valid : SchemaNode → JsonVal → Bool
  | .mk ts props, v =>
    (match ts with
     | none => true
     | some names => names.any (fun t => typeMatches t v)) &&
    (match v with
     | .vObj kvs => draft4ValidMembers props kvs
     | _ => true)

/-- `properties` check of Draft 4 on the members of an object instance. -/
def draft4ValidMembers (props : SchemaProps) : JsonMembers → Bool
  | .nil => true
  | .cons k v rest =>
    (match schemaGet k props with
     | none => true
     | some sub => draft4Valid sub v) && draft4ValidMembers props rest

end

/-- Checkpoint-queue messages: the `(MessageType, stream_name, payload)`
triples that `producer` puts on the `Queue` and `consumer` receives
(`src/target_parquet/__init__.py`, lines 142, 153, 160, 218). -/
inductive QMsg (ρ : Type) where
  | record (stream : String) (row : ρ)
  | schema (stream : String) (flat : List String)
  | eof

/-- The local state of `consumer` (`src/target_parquet/__init__.py`,
lines 210–254).  `write_file` is abstracted to the pair
`(stream name, rows written)` it receives; `files_created` collects those
flush events in order. -/
structure CState (ρ : Type) where
  files_created : List (String × List ρ)
  current_stream_name : Option String
  records : List (String × List ρ)
  schemas : List (String × List String)

/-- The initial consumer state. -/
def initC {ρ : Type} : CState ρ := ⟨[], none, [], []⟩

/-- One iteration of the `consumer` loop on a received message
(`src/target_parquet/__init__.py`, lines 217–254).  `Except.error "KeyError"`
embeds a `records.pop` on a missing key (including `pop(None)`). -/
def consumerStep {ρ : Type} (file_size : Int) (m : QMsg ρ) (s : CState ρ) :
    Except String (CState ρ) :=
  match m with
  | .record stream r =>
    let switchFlush : Except String (CState ρ) :=
      match s.current_stream_name with
      | some a =>
        if stream = a then .ok s
        else
          match dictPop a s.records with
          | none => .error "KeyError"
          | some (buf, rest) =>
            .ok { s with files_created := s.files_created ++ [(a, buf)],
                         records := rest }
      | none => .ok s
    switchFlush.bind fun s1 =>
    let s2 : CState ρ := { s1 with current_stream_name := some stream }
    match dictGet stream s2.records with
    | none => .ok { s2 with records := dictSet stream [r] s2.records }
    | some buf =>
      let buf' := buf ++ [r]
      let s3 : CState ρ := { s2 with records := dictSet stream buf' s2.records }
      if 0 < file_size ∧ buf'.length % file_size.toNat = 0 then
        match dictPop stream s3.records with
        | none => .error "KeyError"
        | some (b2, rest) =>
          .ok { s3 with files_created := s3.files_created ++ [(stream, b2)],
                        records := rest }
      else .ok s3
  | .schema stream flat => .ok { s with schemas := dictSet stream flat s.schemas }
  | .eof =>
    match s.current_stream_name with
    | none => .error "KeyError"
    | some a =>
      match dictPop a s.records with
      | none => .error "KeyError"
      | some (buf, rest) =>
        .ok { s with files_created := s.files_created ++ [(a, buf)],
                     records := rest }

/-- The `consumer` loop over the queue contents: processes messages in order
and breaks after `EOF` (the producer always terminates the queue with one). -/
def consumerRun {ρ : Type} (file_size : Int) :
    List (QMsg ρ) → CState ρ → Except String (CState ρ)
  | [], s => .ok s
  | .eof :: _, s => consumerStep file_size .eof s
  | m :: rest, s => (consumerStep file_size m s).bind (consumerRun file_size rest)

/-- An input line after `singer.parse_message`: the wire messages of §6.
A `schema` message carries the whole `message["schema"]` object as a
`SchemaNode` (its `properties` inside) plus `key_properties`. -/
inductive InMsg where
  | record (stream : String) (rec : JsonMembers)
  | state (value : JsonVal)
  | schema (stream : String) (root : SchemaNode) (keys : List String)
  | other (t : String)

/-- The fatal exceptions `producer` can raise
(`src/target_parquet/__init__.py`, lines 130–165). -/
inductive PErr where
  | protocolError   -- ValueError: record encountered before its schema
  | validationError -- jsonschema.ValidationError from the external validator
  | nameError       -- NameError: helpers.flatten uses `json` without importing it
  | keyError        -- KeyError on the validators dict (unreachable in practice)
deriving DecidableEq

/-- A flattened record row. -/
abbrev FlatRow := List (String × JsonVal)

/-- The local state of `producer`: the shared `schemas`/`validators`/
`key_properties` dicts, the checkpoint candidate `state`, and the messages
put on the queue so far. -/
structure PState where
  schemas : List (String × List String)
  validators : List (String × SchemaNode)
  key_properties : List (String × List String)
  state : Option JsonVal
  queue : List (QMsg FlatRow)

/-- The initial producer state. -/
def initP : PState := ⟨[], [], [], none, []⟩

/-- `message["value"]` as the Python object the producer stores in `state`:
JSON `null` parses to Python `None` — the very value `emit_state`'s
`if state is not None:` guard tests — so a null-valued STATE message leaves
`state = None`, embedded as `none`; every other JSON value is stored as
itself. -/
def pyValue : JsonVal → Option JsonVal
  | .vNull => none
  | v => some v

/-- One iteration of the `producer` loop on a parsed message
(`src/target_parquet/__init__.py`, lines 123–159). -/
def producerStep (s : PState) (m : InMsg) : Except PErr PState :=
  match m with
  | .record stream rec =>
    match dictGet stream s.schemas with
    | none => .error .protocolError
    | some _ =>
      match dictGet stream s.validators with
      | none => .error .keyError
      | some validator =>
        if draft4Valid validator (.vObj rec) then
          match flatten rec with
          | .error _ => .error .nameError
          | .ok fr =>
            .ok { s with queue := s.queue ++ [.record stream fr], state := none }
        else .error .validationError
  | .state v => .ok { s with state := pyValue v }
  | .schema stream root keys =>
    let flat := flatten_schema "__" root.properties ""
    .ok { s with validators := dictSet stream root s.validators,
                 schemas := dictSet stream flat s.schemas,
                 key_properties := dictSet stream keys s.key_properties,
                 queue := s.queue ++ [.schema stream flat] }
  | .other _ => .ok s

/-- The `producer` loop over the whole input. -/
def producerRun : List InMsg → PState → Except PErr PState
  | [], s => .ok s
  | m :: rest, s => (producerStep s m).bind (producerRun rest)

/-- `producer(message_buffer, w_queue)`: on success, the final `state` and
the queue contents terminated by the `EOF` sentinel
(`src/target_parquet/__init__.py`, lines 120–165).  On an exception the
queue also receives `EOF`, but `persist_messages` re-raises before
`consumer(q)` is ever called, so only the success queue matters. -/
def producer (msgs : List InMsg) : Except PErr (Option JsonVal × List (QMsg FlatRow)) :=
  (producerRun msgs initP).map fun s => (s.state, s.queue ++ [.eof])

/-- A whole-run error: either the producer's exception or the consumer's. -/
inductive RunErr where
  | producerErr (e : PErr)
  | consumerErr (e : String)
deriving DecidableEq

/-- `emit_state` (`src/target_parquet/__init__.py`, lines 57–62): the
checkpoint lines written to standard output — one JSON line when the state
is non-null, nothing otherwise. -/
def emit_state : Option JsonVal → List JsonVal
  | none => []
  | some v => [v]

/-- The whole run: `persist_messages` (producer, then `consumer(q)` on the
same thread) followed by `emit_state` — `main` only reaches `emit_state`
when `persist_messages` returns normally.  Yields the standard-output lines
and the final consumer state. -/
def runTarget (msgs : List InMsg) (file_size : Int) :
    Except RunErr (List JsonVal × CState FlatRow) :=
  match producer msgs with
  | .error e => .error (.producerErr e)
  | .ok (st, q) =>
    match consumerRun file_size q initC with
    | .error e => .error (.consumerErr e)
    | .ok cs => .ok (emit_state st, cs)

/-- The checkpoint lines the run actually writes: none when it terminates
abnormally. -/
def runStdout (msgs : List InMsg) (file_size : Int) : List JsonVal :=
  match runTarget msgs file_size with
  | .error _ => []
  | .ok (out, _) => out

/-- The flush events of the run: none when the producer raises, since
`consumer(q)` is then never called. -/
def runFiles (msgs : List InMsg) (file_size : Int) : List (String × List FlatRow) :=
  match runTarget msgs file_size with
  | .error _ => []
  | .ok (_, cs) => cs.files_created

/-- `batch_size` inside `write_file` (`src/target_parquet/__init__.py`,
line 168). -/
def batch_size : Nat := 20000

/-- Python `range(start, stop, step)` over naturals (empty for `step = 0`,
where Python raises). -/
def pyRange3 (start stop step : Nat) : List Nat :=
  if h : 0 < step ∧ start < stop then start :: pyRange3 (start + step) stop step
  else []
termination_by stop - start
decreasing_by omega

/-- One part file written by `write_file`: its row offset (part of the file
name), the rows encoded into it, and the schema handed to `ParquetWriter`. -/
structure FilePart (ρ σ : Type) where
  offset : Nat
  rows : List ρ
  schemaUsed : σ

/-- The sub-batch loop of `write_file` (`src/target_parquet/__init__.py`,
lines 186–205): slice `batch_size` rows at each offset, derive
`dataframe_schema` from the first sub-batch's table (`ds` abstracts
`create_dataframe(...).schema`) and hand the stored schema to
`ParquetWriter` for every part. -/
def writeLoop {ρ σ : Type} (record : List ρ) (ds : List ρ → σ) :
    List Nat → Option σ → List (FilePart ρ σ)
  | [], _ => []
  | off :: rest, dataframe_schema =>
    let sub := (record.drop off).take batch_size
    let sch := match dataframe_schema with
      | none => ds sub
      | some sc => sc
    ⟨off, sub, sch⟩ :: writeLoop record ds rest (some sch)

/-- The part files produced by one `write_file(current_stream_name, record)`
call, after the in-place `random.shuffle(record)`: `record` here is the
already-shuffled buffer. -/
def write_file_parts {ρ σ : Type} (record : List ρ) (ds : List ρ → σ) :
    List (FilePart ρ σ) :=
  writeLoop record ds (pyRange3 0 record.length batch_size) none

/-- The codec table of `persist_messages`
(`src/target_parquet/__init__.py`, lines 97–103). -/
def extension_mapping : List (String × String) :=
  [("SNAPPY", ".snappy"), ("GZIP", ".gz"), ("BROTLI", ".br"),
   ("ZSTD", ".zstd"), ("LZ4", ".lz4")]

/-- Python's `str.upper()` (character-wise, which matches `.upper()` on the
ASCII codec names involved here). -/
def pyUpper (s : String) : String := String.mk (s.data.map Char.toUpper)

/-- The compression setup of `persist_messages`
(`src/target_parquet/__init__.py`, lines 94–108): yields
`(compression_extension, compression_method, a diagnostic was logged)`.
The guard `if compression_method:` is Python truthiness, so `None` and the
empty string skip the whole block. -/
def setupCompression (compression_method : Option String) :
    String × Option String × Bool :=
  match compression_method with
  | some s =>
    if s = "" then ("", some s, false)
    else
      match dictGet (pyUpper s) extension_mapping with
      | some ext => (ext, some s, false)
      | none => ("", none, true)
  | none => ("", none, false)

/-- Whether a list of input messages contains a RECORD message. -/
def hasRecordMsg (l : List InMsg) : Bool :=
  l.any fun m => match m with
    | .record _ _ => true
    | _ => false

/-- Whether a list of input messages contains a SCHEMA message for stream `S`. -/
def hasSchemaFor (S : String) (l : List InMsg) : Bool :=
  l.any fun m => match m with
    | .schema s _ _ => s == S
    | _ => false

/-- Whether the input contains a RECORD message for stream `S` with no
SCHEMA message for `S` anywhere before it. -/
def hasRecordBeforeSchema (S : String) : List InMsg → Bool
  | [] => false
  | .record s _ :: rest => s == S || hasRecordBeforeSchema S rest
  | .schema s _ _ :: rest =>
    if s == S then false else hasRecordBeforeSchema S rest
  | _ :: rest => hasRecordBeforeSchema S rest

/-- Whether a list of queue messages contains the `EOF` sentinel. -/
def hasEofQ {ρ : Type} (l : List (QMsg ρ)) : Bool :=
  l.any fun m => match m with
    | .eof => true
    | _ => false

/-- A schema `properties` mapping built from a list literal (readability
helper). -/
def sp (l : List (String × SchemaNode)) : SchemaProps :=
  l.foldr (fun p acc => .cons p.1 p.2 acc) .nil

/-- The example input of the `flatten` docstring (`helpers.py`, lines 14–24;
also `src/target_parquet.py`, lines 60–70, and §8 of the spec). -/
def exampleDict : JsonMembers :=
  jm [("key_1", .vInt 1),
      ("key_2", .vObj (jm
        [("key_3", .vInt 2),
         ("key_4", .vObj (jm
           [("key_5", .vInt 3),
            ("key_6", .vList (je [.vStr "10", .vStr "11"]))]))]))]

/-- The flattened mapping the docstrings and the spec promise for
`exampleDict`. -/
def exampleFlattened : List (String × JsonVal) :=
  [("key_1", .vInt 1), ("key_2__key_3", .vInt 2),
   ("key_2__key_4__key_5", .vInt 3),
   ("key_2__key_4__key_6", .vStr "['10', '11']")]

/-- Schema `properties` with an object-typed member, as in the
`flatten_schema` docstring: `key_2` has type `["null", "object"]`. -/
def c1Props : SchemaProps :=
  sp [("key_2", .mk (some ["null", "object"])
    (sp [("key_3", .mk (some ["null", "string"]) (sp []))]))]

/-- The full schema object built over `c1Props` (no top-level `"type"`). -/
def c1Root : SchemaNode := .mk none c1Props

/-- A record that sets the object-typed `key_2` to `null` — valid under
Draft 4 for the type union `["null", "object"]`. -/
def c1Record : JsonMembers := jm [("key_2", .vNull)]

/-- A record that structurally conforms to `c1Props`: the object-typed
`key_2` actually holds a mapping. -/
def c1GoodRecord : JsonMembers :=
  jm [("key_2", .vObj (jm [("key_3", .vStr "x")]))]

/-- Input for the C5 witness: schema, one valid record, then a state. -/
def c5msgs : List InMsg :=
  [.schema "s" (.mk none (sp [("a", .mk (some ["integer"]) (sp []))])) [],
   .record "s" (jm [("a", .vInt 1)]),
   .state (.vInt 7)]

/-- The same run ending in a null-valued STATE message
(`{"type": "STATE", "value": null}`): the final checkpoint is Python
`None`, which `emit_state` suppresses. -/
def c5nullmsgs : List InMsg :=
  [.schema "s" (.mk none (sp [("a", .mk (some ["integer"]) (sp []))])) [],
   .record "s" (jm [("a", .vInt 1)]),
   .state .vNull]

/-- Input for the C6 counterexample: a record that fails validation for
stream `t` precedes the record-before-schema violation for stream `s`. -/
def c6msgs : List InMsg :=
  [.schema "t" (.mk none (sp [("a", .mk (some ["integer"]) (sp []))])) [],
   .record "t" (jm [("a", .vStr "x")]),
   .record "s" (jm [("b", .vInt 1)])]

/-- Input for the C8 witness: with `file_size = 2`, the second record
triggers a size-threshold flush that empties stream `a`'s buffer just
before end of input. -/
def c8msgs : List InMsg :=
  [.schema "a" (.mk none (sp [])) [],
   .record "a" (jm [("x", .vInt 1)]),
   .record "a" (jm [("x", .vInt 2)])]

/-- The queue contents `producer` emits for `c8msgs`, before the `EOF`
sentinel. -/
def c8body : List (QMsg FlatRow) :=
  [.schema "a" [],
   .record "a" [("x", .vInt 1)],
   .record "a" [("x", .vInt 2)]]

/-- The consumer state after processing `c8body` with `file_size = 2`: the
threshold flush has just emptied stream `a`'s buffer while `a` stays the
current stream. -/
def c8state : CState FlatRow :=
  ⟨[("a", [[("x", .vInt 1)], [("x", .vInt 2)]])], some "a", [], [("a", [])]⟩

/-- The final consumer state of the successful `c5msgs` run. -/
def c5state : CState FlatRow :=
  ⟨[("s", [[("a", .vInt 1)]])], some "s", [], [("s", ["a"])]⟩

/-! ## Dictionary lemmas -/

theorem dictGet_append {α : Type} (k : String) (l1 l2 : List (String × α)) :
    dictGet k (l1 ++ l2) =
      match dictGet k l1 with
      | some v => some v
      | none => dictGet k l2 := by
  induction l1 with
  | nil => simp [dictGet]
  | cons p rest ih =>
    by_cases hp : p.1 = k
    · simp [dictGet, hp]
    · simp [dictGet, hp, ih]

theorem dictGet_map_update {α : Type} (k : String) (v : α)
    (l : List (String × α)) :
    dictGet k (l.map fun p => if p.1 = k then (p.1, v) else p) =
      (dictGet k l).map fun _ => v := by
  induction l with
  | nil => simp [dictGet]
  | cons p rest ih =>
    obtain ⟨a, b⟩ := p
    rw [List.map_cons]
    by_cases hp : a = k
    · rw [show (if (a, b).1 = k then ((a, b).1, v) else (a, b)) = (a, v) by
        simp [hp]]
      simp [dictGet, hp]
    · rw [show (if (a, b).1 = k then ((a, b).1, v) else (a, b)) = (a, b) by
        simp [hp]]
      simp [dictGet, hp, ih]

theorem dictGet_map_update_ne {α : Type} (k k' : String) (v : α)
    (l : List (String × α)) (hk : k' ≠ k) :
    dictGet k' (l.map fun p => if p.1 = k then (p.1, v) else p) =
      dictGet k' l := by
  induction l with
  | nil => simp [dictGet]
  | cons p rest ih =>
    obtain ⟨a, b⟩ := p
    rw [List.map_cons]
    by_cases hp : a = k
    · have hp' : ¬ a = k' := by
        rw [hp]; exact fun h => hk h.symm
      rw [show (if (a, b).1 = k then ((a, b).1, v) else (a, b)) = (a, v) by
        simp [hp]]
      simp [dictGet, hp', ih]
    · rw [show (if (a, b).1 = k then ((a, b).1, v) else (a, b)) = (a, b) by
        simp [hp]]
      by_cases hq : a = k'
      · simp [dictGet, hq]
      · simp [dictGet, hq, ih]

theorem dictGet_set_self {α : Type} (k : String) (v : α)
    (l : List (String × α)) : dictGet k (dictSet k v l) = some v := by
  unfold dictSet
  by_cases h : (dictGet k l).isSome
  · rw [if_pos h, dictGet_map_update]
    cases hg : dictGet k l with
    | none => rw [hg] at h; simp at h
    | some w => simp
  · rw [if_neg h, dictGet_append]
    cases hg : dictGet k l with
    | none => simp [dictGet]
    | some w => rw [hg] at h; simp at h

theorem dictGet_set_ne {α : Type} (k k' : String) (v : α)
    (l : List (String × α)) (hk : k' ≠ k) :
    dictGet k' (dictSet k v l) = dictGet k' l := by
  unfold dictSet
  by_cases h : (dictGet k l).isSome
  · rw [if_pos h, dictGet_map_update_ne _ _ _ _ hk]
  · rw [if_neg h, dictGet_append]
    cases hg : dictGet k' l with
    | none =>
      have hk' : ¬ k = k' := fun h => hk h.symm
      simp [dictGet, hk']
    | some w => simp

theorem dictGet_filter_self {α : Type} (k : String) (l : List (String × α)) :
    dictGet k (l.filter fun p => decide (p.1 ≠ k)) = none := by
  induction l with
  | nil => simp [dictGet]
  | cons p rest ih =>
    obtain ⟨a, b⟩ := p
    by_cases hp : a = k
    · simpa [List.filter_cons, hp] using ih
    · simpa [List.filter_cons, hp, dictGet] using ih

theorem dictGet_filter_ne {α : Type} (k k' : String) (l : List (String × α))
    (hk : k' ≠ k) :
    dictGet k' (l.filter fun p => decide (p.1 ≠ k)) = dictGet k' l := by
  induction l with
  | nil => simp [dictGet]
  | cons p rest ih =>
    obtain ⟨a, b⟩ := p
    by_cases hp : a = k
    · have hk' : ¬ k = k' := fun h => hk h.symm
      simpa [List.filter_cons, hp, dictGet, hk'] using ih
    · by_cases hq : a = k'
      · have hq' : ¬ k' = k := fun h => hp (hq.trans h)
        simpa [List.filter_cons, hp, dictGet, hq, hq'] using ih
      · simpa [List.filter_cons, hp, dictGet, hq] using ih

theorem dictPop_of_get {α : Type} (k : String) (l : List (String × α)) (v : α)
    (h : dictGet k l = some v) :
    dictPop k l = some (v, l.filter fun p => decide (p.1 ≠ k)) := by
  simp [dictPop, h]

theorem keys_pyDictIns {α : Type} (acc : List (String × α)) (kv : String × α)
    (x : String) (hx : x ∈ (pyDictIns acc kv).map Prod.fst) :
    x ∈ acc.map Prod.fst ∨ x = kv.1 := by
  unfold pyDictIns at hx
  split at hx
  · rw [List.map_map] at hx
    have hfst : ∀ p : String × α,
        (Prod.fst ∘ fun p => if p.1 = kv.1 then (p.1, kv.2) else p) p = p.1 := by
      intro p
      by_cases hp : p.1 = kv.1 <;> simp [hp]
    rw [List.map_congr_left fun p _ => hfst p] at hx
    exact Or.inl hx
  · rw [List.map_append] at hx
    rcases List.mem_append.mp hx with h | h
    · exact Or.inl h
    · simp at h
      exact Or.inr h

theorem mem_keys_pyDict_aux {α : Type} (items : List (String × α))
    (acc : List (String × α)) (x : String)
    (hx : x ∈ (items.foldl pyDictIns acc).map Prod.fst) :
    x ∈ acc.map Prod.fst ∨ x ∈ items.map Prod.fst := by
  induction items generalizing acc with
  | nil => exact Or.inl hx
  | cons kv rest ih =>
    rw [List.foldl_cons] at hx
    rcases ih (pyDictIns acc kv) hx with h | h
    · rcases keys_pyDictIns acc kv x h with h' | h'
      · exact Or.inl h'
      · exact Or.inr (by simp [h'])
    · exact Or.inr (by simp [h])

theorem mem_keys_pyDict {α : Type} (items : List (String × α)) (x : String)
    (hx : x ∈ (pyDict items).map Prod.fst) : x ∈ items.map Prod.fst := by
  rcases mem_keys_pyDict_aux items [] x hx with h | h
  · simp at h
  · exact h

/-! ## Claim C2 -/

/-- Claim C2 (code bug): the claim — and the `flatten` docstring of
`helpers.py` itself — promise that the example dictionary flattens to
`exampleFlattened`, every list value converted to its string form and kept
as a leaf.  The packaged `helpers.flatten` instead raises `NameError` on the
list value, because it calls `json.dumps` without importing `json`; the
legacy `flatten` of `src/target_parquet.py`, which uses `str(v)`, produces
exactly the documented mapping. -/
theorem flatten_example_name_error :
    flatten exampleDict = .error () ∧
    flatten_str exampleDict = exampleFlattened :=
  ⟨rfl, rfl⟩

/-! ## Claim C3 -/

/-- Claim C3: when a record for stream `B` arrives while the consumer's
current stream is `A ≠ B` (with `A`'s buffer present, as is invariant under
the default `file_size = -1`), `A`'s entire buffer is flushed as one file
and only then is `B`'s record admitted, into a fresh singleton buffer. -/
theorem stream_switch_flush {ρ : Type} (file_size : Int) (s : CState ρ)
    (A B : String) (r : ρ) (buf : List ρ)
    (hA : s.current_stream_name = some A) (hne : B ≠ A)
    (hbuf : dictGet A s.records = some buf)
    (hB : dictGet B s.records = none) :
    consumerStep file_size (.record B r) s = .ok
      { files_created := s.files_created ++ [(A, buf)],
        current_stream_name := some B,
        records := dictSet B [r] (s.records.filter fun p => decide (p.1 ≠ A)),
        schemas := s.schemas } := by
  simp only [consumerStep, hA, if_neg hne, dictPop_of_get A s.records buf hbuf,
    Except.bind]
  have hBf : dictGet B (s.records.filter fun p => decide (p.1 ≠ A)) = none := by
    rw [dictGet_filter_ne A B s.records hne]; exact hB
  simp only [hBf]

/-- Witness for C3: the `Record(A), Record(A), Record(B)` scenario at the
moment the `B` record arrives — one file holding both `A` rows is produced
before `B`'s row enters a buffer. -/
theorem stream_switch_flush_witness :
    (("b" : String) ≠ "a") ∧
    dictGet "a" ([("a", [0, 1])] : List (String × List Nat)) = some [0, 1] ∧
    ∃ s', consumerStep (-1) (QMsg.record "b" (2 : Nat))
        (⟨[], some "a", [("a", [0, 1])], []⟩ : CState Nat) = .ok s' ∧
      s'.files_created = [("a", [0, 1])] ∧
      s'.current_stream_name = some "b" ∧
      dictGet "b" s'.records = some [2] :=
  ⟨by decide, rfl,
   ⟨_, stream_switch_flush (-1) ⟨[], some "a", [("a", [0, 1])], []⟩ "a" "b" 2
      [0, 1] rfl (by decide) rfl rfl, rfl, rfl, rfl⟩⟩

/-! ## Claim C4 -/

/-- Claim C4 counterexample: with `file_size = 1`, a record that creates a
fresh buffer leaves that buffer at length `1` — a multiple of the
threshold — yet no flush happens: the threshold check only runs in the
append branch of the consumer, never when `records[stream]` is first
created. -/
theorem threshold_create_branch_cex :
    consumerStep 1 (QMsg.record "a" (0 : Nat)) (initC : CState Nat) =
      .ok ⟨[], some "a", [("a", [0])], []⟩ ∧
    (0 : Int) < 1 ∧ [(0 : Nat)].length % (1 : Int).toNat = 0 :=
  ⟨rfl, by decide, by decide⟩

/-- Claim C4 as amended: the size-threshold check runs only when a record is
appended to an existing buffer for the current stream; then, with a positive
`file_size`, the buffer is flushed exactly when its new length is a multiple
of the threshold (keeping the current stream unchanged) and retained
otherwise.  A record creating a fresh singleton buffer is never
threshold-checked, which is observable only for `file_size = 1`. -/
theorem threshold_flush_on_append {ρ : Type} (file_size : Int) (s : CState ρ)
    (st : String) (r : ρ) (buf : List ρ)
    (hcur : s.current_stream_name = some st)
    (hbuf : dictGet st s.records = some buf)
    (hf : 0 < file_size) :
    ∃ s', consumerStep file_size (.record st r) s = .ok s' ∧
      s'.current_stream_name = some st ∧
      ((buf.length + 1) % file_size.toNat = 0 →
        s'.files_created = s.files_created ++ [(st, buf ++ [r])] ∧
        dictGet st s'.records = none) ∧
      ((buf.length + 1) % file_size.toNat ≠ 0 →
        s'.files_created = s.files_created ∧
        dictGet st s'.records = some (buf ++ [r])) := by
  have hlen : (buf ++ [r]).length = buf.length + 1 := by simp
  by_cases hmod : (buf.length + 1) % file_size.toNat = 0
  · have hcond : 0 < file_size ∧ (buf ++ [r]).length % file_size.toNat = 0 :=
      ⟨hf, by rw [hlen]; exact hmod⟩
    have hget : dictGet st (dictSet st (buf ++ [r]) s.records) = some (buf ++ [r]) :=
      dictGet_set_self st (buf ++ [r]) s.records
    have hstep : consumerStep file_size (.record st r) s = .ok
        { files_created := s.files_created ++ [(st, buf ++ [r])],
          current_stream_name := some st,
          records := (dictSet st (buf ++ [r]) s.records).filter
            fun p => decide (p.1 ≠ st),
          schemas := s.schemas } := by
      simp only [consumerStep, hcur, eq_self_iff_true, if_true, Except.bind,
        hbuf, if_pos hcond, dictPop_of_get st _ _ hget]
    exact ⟨_, hstep, rfl, fun _ => ⟨rfl, dictGet_filter_self st _⟩,
      fun h => absurd hmod h⟩
  · have hcond : ¬ (0 < file_size ∧ (buf ++ [r]).length % file_size.toNat = 0) := by
      rw [hlen]; exact fun h => hmod h.2
    have hstep : consumerStep file_size (.record st r) s = .ok
        { s with current_stream_name := some st,
                 records := dictSet st (buf ++ [r]) s.records } := by
      simp only [consumerStep, hcur, eq_self_iff_true, if_true, Except.bind,
        hbuf, if_neg hcond]
    exact ⟨_, hstep, rfl, fun h => absurd h hmod,
      fun _ => ⟨rfl, dictGet_set_self st (buf ++ [r]) s.records⟩⟩

/-- Witness for C4: `file_size = 2` and a second record for the same
stream — the buffer reaches length `2` and is flushed as one 2-row file,
with the current stream unchanged. -/
theorem threshold_flush_on_append_witness :
    dictGet "a" ([("a", [0])] : List (String × List Nat)) = some [0] ∧
    (0 : Int) < 2 ∧
    ∃ s', consumerStep 2 (QMsg.record "a" (1 : Nat))
        (⟨[], some "a", [("a", [0])], []⟩ : CState Nat) = .ok s' ∧
      s'.current_stream_name = some "a" ∧
      s'.files_created = [("a", [0, 1])] ∧
      dictGet "a" s'.records = none := by
  obtain ⟨s', h1, h2, h3, h4⟩ := threshold_flush_on_append 2
    (⟨[], some "a", [("a", [0])], []⟩ : CState Nat) "a" 1 [0] rfl rfl (by decide)
  obtain ⟨hfiles, hrec⟩ := h3 (by decide)
  exact ⟨rfl, by decide, s', h1, h2, by simpa using hfiles, hrec⟩

/-! ## Claim C9 -/

/-- Claim C9 counterexample: the empty string is a configured
`compression_method` whose upper-cased name is not in the codec table, yet
Python truthiness skips the whole block: no diagnostic is logged and
`compression_method` is not reset to `None`. -/
theorem compression_unsupported_cex :
    dictGet (pyUpper "") extension_mapping = none ∧
    setupCompression (some "") = ("", some "", false) :=
  ⟨rfl, rfl⟩

/-- Claim C9 as amended: for every non-empty `compression_method` whose
upper-cased name is missing from the codec table, the run is not aborted —
compression is disabled (`None`), the compression extension is empty, and a
diagnostic is logged. -/
theorem compression_unsupported_disables (s : String) (hne : s ≠ "")
    (hun : dictGet (pyUpper s) extension_mapping = none) :
    setupCompression (some s) = ("", none, true) := by
  simp [setupCompression, hne, hun]

/-- Witness for C9: the codec name `lzo` (supported only by the legacy
fastparquet table) degrades to no compression with a diagnostic. -/
theorem compression_unsupported_disables_witness :
    (("lzo" : String) ≠ "") ∧
    dictGet (pyUpper "lzo") extension_mapping = none ∧
    setupCompression (some "lzo") = ("", none, true) :=
  ⟨by decide, rfl, compression_unsupported_disables "lzo" (by decide) rfl⟩

/-! ## Claim C7 -/

theorem pyRange3_join {ρ : Type} (l : List ρ) (s : Nat) (hs : 0 < s) (k : Nat) :
    ((pyRange3 k l.length s).map fun off => (l.drop off).take s).join =
      l.drop k := by
  rw [pyRange3]
  split
  · rename_i h
    rw [List.map_cons]
    show (l.drop k).take s ++
        ((pyRange3 (k + s) l.length s).map fun off => (l.drop off).take s).join =
      l.drop k
    rw [pyRange3_join l s hs (k + s)]
    have hd : l.drop (k + s) = (l.drop k).drop s := by
      rw [List.drop_drop]
    rw [hd]
    exact List.take_append_drop s (l.drop k)
  · rename_i h
    have hlen : l.length ≤ k := by
      rcases Nat.lt_or_ge k l.length with h1 | h1
      · exact absurd ⟨hs, h1⟩ h
      · exact h1
    rw [List.drop_eq_nil_of_le hlen]
    simp
termination_by l.length - k
decreasing_by omega

theorem pyRange3_lb (start stop step : Nat) :
    ∀ x ∈ pyRange3 start stop step, start ≤ x := by
  rw [pyRange3]
  split
  · rename_i h
    intro x hx
    rcases List.mem_cons.mp hx with rfl | hx'
    · exact Nat.le_refl x
    · have := pyRange3_lb (start + step) stop step x hx'
      omega
  · intro x hx
    simp at hx
termination_by stop - start
decreasing_by omega

theorem pyRange3_nodup (start stop step : Nat) (hs : 0 < step) :
    (pyRange3 start stop step).Nodup := by
  rw [pyRange3]
  split
  · rename_i h
    refine List.nodup_cons.mpr ⟨?_, pyRange3_nodup (start + step) stop step hs⟩
    intro hmem
    have := pyRange3_lb (start + step) stop step start hmem
    omega
  · exact List.nodup_nil
termination_by stop - start
decreasing_by omega

theorem writeLoop_rows {ρ σ : Type} (record : List ρ) (ds : List ρ → σ)
    (offs : List Nat) (sch : Option σ) :
    (writeLoop record ds offs sch).map (fun p => p.rows) =
      offs.map (fun off => (record.drop off).take batch_size) := by
  induction offs generalizing sch with
  | nil => rfl
  | cons off rest ih => simp [writeLoop, ih]

theorem writeLoop_offsets {ρ σ : Type} (record : List ρ) (ds : List ρ → σ)
    (offs : List Nat) (sch : Option σ) :
    (writeLoop record ds offs sch).map (fun p => p.offset) = offs := by
  induction offs generalizing sch with
  | nil => rfl
  | cons off rest ih => simp [writeLoop, ih]

theorem writeLoop_mem_rows {ρ σ : Type} (record : List ρ) (ds : List ρ → σ)
    (offs : List Nat) (sch : Option σ) (p : FilePart ρ σ)
    (hp : p ∈ writeLoop record ds offs sch) :
    p.rows = (record.drop p.offset).take batch_size := by
  induction offs generalizing sch with
  | nil => simp [writeLoop] at hp
  | cons off rest ih =>
    simp only [writeLoop] at hp
    rcases List.mem_cons.mp hp with rfl | hp'
    · rfl
    · exact ih _ hp'

theorem writeLoop_schema_const {ρ σ : Type} (record : List ρ)
    (ds : List ρ → σ) (offs : List Nat) (sc : σ) (p : FilePart ρ σ)
    (hp : p ∈ writeLoop record ds offs (some sc)) : p.schemaUsed = sc := by
  induction offs generalizing p with
  | nil => simp [writeLoop] at hp
  | cons off rest ih =>
    simp only [writeLoop] at hp
    rcases List.mem_cons.mp hp with rfl | hp'
    · rfl
    · exact ih _ hp'

/-- Claim C7: `write_file` splits every flushed batch into sub-batches of at
most `batch_size = 20000` rows whose concatenation is the whole (shuffled)
batch, writes each sub-batch at a distinct row offset (hence to its own
part file, the offset being part of the file name), and hands
`ParquetWriter` the schema derived from the first sub-batch's encoded table
for every part of the same flush. -/
theorem write_file_subbatch_spec {ρ σ : Type} (record : List ρ)
    (ds : List ρ → σ) :
    ((write_file_parts record ds).map (fun p => p.rows)).join = record ∧
    (∀ p ∈ write_file_parts record ds, p.rows.length ≤ batch_size) ∧
    ((write_file_parts record ds).map (fun p => p.offset)).Nodup ∧
    (∀ p ∈ write_file_parts record ds,
      p.schemaUsed = ds (record.take batch_size)) := by
  refine ⟨?_, ?_, ?_, ?_⟩
  · rw [write_file_parts, writeLoop_rows]
    have h := pyRange3_join record batch_size (by decide) 0
    simpa using h
  · intro p hp
    rw [write_file_parts] at hp
    rw [writeLoop_mem_rows record ds _ _ p hp]
    rw [List.length_take]
    exact min_le_left _ _
  · rw [write_file_parts, writeLoop_offsets]
    exact pyRange3_nodup 0 record.length batch_size (by decide)
  · intro p hp
    rw [write_file_parts] at hp
    cases hr : pyRange3 0 record.length batch_size with
    | nil => rw [hr] at hp; simp [writeLoop] at hp
    | cons off rest =>
      have hoff : off = 0 := by
        rw [pyRange3] at hr
        split at hr
        · exact (List.cons.injEq _ _ _ _ ▸ hr).1.symm
        · exact absurd hr (by simp)
      rw [hr, hoff] at hp
      simp only [writeLoop, List.drop_zero] at hp
      rcases List.mem_cons.mp hp with rfl | hp'
      · rfl
      · exact writeLoop_schema_const record ds rest _ p hp'

/-- Witness for C7: a concrete three-row batch is written as a single
sub-batch whose concatenation is the batch itself. -/
theorem write_file_subbatch_spec_witness :
    ((write_file_parts [1, 2, 3] (fun l : List Nat => l.length)).map
      (fun p => p.rows)).join = [1, 2, 3] :=
  (write_file_subbatch_spec [1, 2, 3] (fun l => l.length)).1

/-! ## Producer lemmas -/

theorem producerRun_append (l1 l2 : List InMsg) (s : PState) :
    producerRun (l1 ++ l2) s =
      (producerRun l1 s).bind fun s' => producerRun l2 s' := by
  induction l1 generalizing s with
  | nil => rfl
  | cons m rest ih =>
    show (producerStep s m).bind (producerRun (rest ++ l2)) = _
    cases hstep : producerStep s m with
    | error e => simp [producerRun, hstep, Except.bind]
    | ok s1 => simp [producerRun, hstep, Except.bind, ih]

theorem producerStep_record_inv (s : PState) (st : String) (rec : JsonMembers)
    (s1 : PState) (h : producerStep s (.record st rec) = .ok s1) :
    s1.state = none ∧ s1.schemas = s.schemas := by
  simp only [producerStep] at h
  cases hg : dictGet st s.schemas with
  | none => simp [hg] at h
  | some fl =>
    simp only [hg] at h
    cases hv : dictGet st s.validators with
    | none => simp [hv] at h
    | some vd =>
      simp only [hv] at h
      by_cases hval : draft4Valid vd (.vObj rec) = true
      · simp only [if_pos hval] at h
        cases hf : flatten rec with
        | error e => simp [hf] at h
        | ok fr =>
          simp only [hf] at h
          injection h with h2
          subst h2
          exact ⟨rfl, rfl⟩
      · simp [hval] at h

theorem pyValue_some (v w : JsonVal) (h : pyValue v = some w) : v = w := by
  cases v with
  | vNull => simp [pyValue] at h
  | vInt n => simpa [pyValue] using h
  | vStr t => simpa [pyValue] using h
  | vBool b => simpa [pyValue] using h
  | vList xs => simpa [pyValue] using h
  | vObj kvs => simpa [pyValue] using h

theorem producer_state_split (msgs : List InMsg) (s s' : PState)
    (h : producerRun msgs s = .ok s') (x : JsonVal) (hx : s'.state = some x) :
    (∃ pre post, msgs = pre ++ InMsg.state x :: post ∧
      hasRecordMsg post = false) ∨
    (s.state = some x ∧ hasRecordMsg msgs = false) := by
  induction msgs generalizing s with
  | nil =>
    right
    simp only [producerRun] at h
    simp at h
    rw [h]
    exact ⟨hx, rfl⟩
  | cons m rest ih =>
    simp only [producerRun] at h
    cases hstep : producerStep s m with
    | error e => rw [hstep] at h; simp [Except.bind] at h
    | ok s1 =>
      rw [hstep] at h
      have h' : producerRun rest s1 = .ok s' := h
      rcases ih s1 h' with ⟨pre, post, heq, hpost⟩ | ⟨hs1, hrest⟩
      · exact Or.inl ⟨m :: pre, post, by rw [heq]; rfl, hpost⟩
      · cases m with
        | record st rec =>
          have hnone := (producerStep_record_inv s st rec s1 hstep).1
          rw [hnone] at hs1
          simp at hs1
        | state v =>
          have hv : s1 = { s with state := pyValue v } := by
            have heq : producerStep s (.state v) =
                .ok { s with state := pyValue v } := rfl
            rw [heq] at hstep
            simpa using hstep.symm
          have hpv : pyValue v = some x := by
            rw [hv] at hs1
            simpa using hs1
          have hvx : v = x := pyValue_some v x hpv
          exact Or.inl ⟨[], rest, by rw [hvx]; rfl, hrest⟩
        | schema st root keys =>
          have hv : s1.state = s.state := by
            have heq : producerStep s (.schema st root keys) = .ok
                { s with validators := dictSet st root s.validators,
                         schemas := dictSet st
                           (flatten_schema "__" root.properties "") s.schemas,
                         key_properties := dictSet st keys s.key_properties,
                         queue := s.queue ++
                           [.schema st (flatten_schema "__" root.properties "")] } :=
              rfl
            rw [heq] at hstep
            have hs1eq := hstep.symm
            simp at hs1eq
            rw [hs1eq]
          right
          refine ⟨by rw [← hv]; exact hs1, ?_⟩
          simp [hasRecordMsg, List.any_cons] at hrest ⊢
          exact hrest
        | other t =>
          have hv : s1 = s := by
            have heq : producerStep s (.other t) = .ok s := rfl
            rw [heq] at hstep
            simpa using hstep.symm
          right
          refine ⟨by rw [hv] at hs1; exact hs1, ?_⟩
          simp [hasRecordMsg, List.any_cons] at hrest ⊢
          exact hrest

/-! ## Claim C5 -/

/-- Claim C5: on a successful run, at most one checkpoint line is written;
a line carrying `x` is only written when some `State(x)` message is followed
by no further Record before end of input; and when the final checkpoint is
null nothing is written at all. -/
theorem checkpoint_suppression (msgs : List InMsg) (file_size : Int)
    (out : List JsonVal) (cs : CState FlatRow)
    (h : runTarget msgs file_size = .ok (out, cs)) :
    out.length ≤ 1 ∧
    (∀ x ∈ out, ∃ pre post, msgs = pre ++ InMsg.state x :: post ∧
      hasRecordMsg post = false) ∧
    (∀ st q, producer msgs = .ok (st, q) → (st = none ↔ out = [])) := by
  unfold runTarget at h
  cases hp : producer msgs with
  | error e => simp [hp] at h
  | ok pq =>
    obtain ⟨st0, q0⟩ := pq
    simp only [hp] at h
    cases hc : consumerRun file_size q0 initC with
    | error e => simp [hc] at h
    | ok cs0 =>
      simp only [hc] at h
      simp at h
      have hout : out = emit_state st0 := h.1.symm
      unfold producer at hp
      cases hrun : producerRun msgs initP with
      | error e => rw [hrun] at hp; simp [Except.map] at hp
      | ok sP =>
        rw [hrun] at hp
        simp [Except.map] at hp
        have hst0 : st0 = sP.state := hp.1.symm
        refine ⟨?_, ?_, ?_⟩
        · rw [hout]; cases st0 <;> simp [emit_state]
        · intro x hx
          rw [hout] at hx
          cases hs : st0 with
          | none => rw [hs] at hx; simp [emit_state] at hx
          | some y =>
            rw [hs] at hx
            simp [emit_state] at hx
            have hsy : sP.state = some y := by rw [← hst0, hs]
            rcases producer_state_split msgs initP sP hrun y hsy with
              hsplit | ⟨habs, _⟩
            · rw [hx]; exact hsplit
            · simp [initP] at habs
        · intro st q hpq
          injection hpq with hpq2
          have h1 : st0 = st := congrArg Prod.fst hpq2
          rw [← h1, hout]
          cases st0 <;> simp [emit_state]

/-- Witness for C5: a run ending in `Schema, Record, State(7)` reports
checkpoint `7`, the emitted value is a state message with no record after
it, and the same run ending in `State(null)` instead writes nothing —
`message["value"]` is Python `None` there and `emit_state` suppresses it. -/
theorem checkpoint_suppression_witness :
    runTarget c5msgs (-1) = .ok ([JsonVal.vInt 7], c5state) ∧
    (∀ x ∈ [JsonVal.vInt 7], ∃ pre post,
      c5msgs = pre ++ InMsg.state x :: post ∧ hasRecordMsg post = false) ∧
    runStdout c5nullmsgs (-1) = [] :=
  ⟨rfl, (checkpoint_suppression c5msgs (-1) [JsonVal.vInt 7] c5state rfl).2.1,
   rfl⟩

/-! ## Claim C6 -/

theorem producerRun_schemas_none (msgs : List InMsg) (s s' : PState)
    (h : producerRun msgs s = .ok s') (S : String)
    (h0 : dictGet S s.schemas = none) (hns : hasSchemaFor S msgs = false) :
    dictGet S s'.schemas = none := by
  induction msgs generalizing s with
  | nil =>
    simp only [producerRun] at h
    simp at h
    rw [← h]
    exact h0
  | cons m rest ih =>
    simp only [producerRun] at h
    cases hstep : producerStep s m with
    | error e => rw [hstep] at h; simp [Except.bind] at h
    | ok s1 =>
      rw [hstep] at h
      have h' : producerRun rest s1 = .ok s' := h
      have hrest : hasSchemaFor S rest = false := by
        simp [hasSchemaFor, List.any_cons] at hns ⊢
        exact fun m hm => hns.2 m hm
      cases m with
      | record st rec =>
        have hsch := (producerStep_record_inv s st rec s1 hstep).2
        exact ih s1 h' (hsch ▸ h0) hrest
      | state v =>
        have h2 := hstep
        simp only [producerStep] at h2
        injection h2 with h3
        refine ih s1 h' ?_ hrest
        rw [← h3]
        exact h0
      | schema st root keys =>
        have hne : ¬ S = st := by
          simp [hasSchemaFor, List.any_cons] at hns
          exact fun he => absurd he.symm hns.1
        have h2 := hstep
        simp only [producerStep] at h2
        injection h2 with h3
        refine ih s1 h' ?_ hrest
        rw [← h3]
        show dictGet S (dictSet st _ s.schemas) = none
        rw [dictGet_set_ne st S _ s.schemas hne]
        exact h0
      | other t =>
        have h2 := hstep
        simp only [producerStep] at h2
        injection h2 with h3
        refine ih s1 h' ?_ hrest
        rw [← h3]
        exact h0

/-- Claim C6 counterexample: `c6msgs` contains a record for stream `s`
before any schema for `s`, yet the run fails with the `ValidationError`
raised earlier (on stream `t`'s invalid record), not with the
record-before-schema `ProtocolError`. -/
theorem record_before_schema_cex :
    hasRecordBeforeSchema "s" c6msgs = true ∧
    runTarget c6msgs (-1) = .error (.producerErr .validationError) ∧
    PErr.validationError ≠ PErr.protocolError :=
  ⟨rfl, rfl, by decide⟩

/-- Claim C6 as amended: when every message before the offending record
processes without error (and none of them is a schema for `S`), a record
for `S` with no prior schema for `S` fails the run with the
record-before-schema `ProtocolError` (`ValueError` in the source), and no
file is produced for any stream — `consumer(q)` is never reached. -/
theorem record_before_schema_fails (pre post : List InMsg) (S : String)
    (rec : JsonMembers) (file_size : Int) (s1 : PState)
    (hpre : producerRun pre initP = .ok s1)
    (hns : hasSchemaFor S pre = false) :
    runTarget (pre ++ InMsg.record S rec :: post) file_size =
      .error (.producerErr .protocolError) ∧
    runFiles (pre ++ InMsg.record S rec :: post) file_size = [] := by
  have hsch : dictGet S s1.schemas = none :=
    producerRun_schemas_none pre initP s1 hpre S rfl hns
  have hrun : producerRun (pre ++ InMsg.record S rec :: post) initP =
      .error .protocolError := by
    rw [producerRun_append, hpre]
    show producerRun (InMsg.record S rec :: post) s1 = .error .protocolError
    simp only [producerRun, producerStep, hsch]
    rfl
  have hprod : producer (pre ++ InMsg.record S rec :: post) =
      .error .protocolError := by
    unfold producer
    rw [hrun]
    rfl
  constructor
  · unfold runTarget
    rw [hprod]
  · unfold runFiles runTarget
    rw [hprod]

/-- Witness for C6 (amended): the one-message input `Record(s)` fails with
the protocol error and produces no files. -/
theorem record_before_schema_fails_witness :
    producerRun [] initP = .ok initP ∧
    hasSchemaFor "s" [] = false ∧
    (runTarget ([] ++ InMsg.record "s" (jm []) :: []) (-1) =
       .error (.producerErr .protocolError) ∧
     runFiles ([] ++ InMsg.record "s" (jm []) :: []) (-1) = []) :=
  ⟨rfl, rfl, record_before_schema_fails [] [] "s" (jm []) (-1) initP rfl rfl⟩

/-! ## Claim C8 -/

theorem consumerRun_append {ρ : Type} (file_size : Int)
    (l1 l2 : List (QMsg ρ)) (s : CState ρ) (h : hasEofQ l1 = false) :
    consumerRun file_size (l1 ++ l2) s =
      (consumerRun file_size l1 s).bind fun s' =>
        consumerRun file_size l2 s' := by
  induction l1 generalizing s with
  | nil => rfl
  | cons m rest ih =>
    have hrest : hasEofQ rest = false := by
      simp [hasEofQ, List.any_cons] at h ⊢
      exact fun m hm => h.2 m hm
    cases m with
    | eof => simp [hasEofQ, List.any_cons] at h
    | record st r =>
      show (consumerStep file_size (.record st r) s).bind
          (consumerRun file_size (rest ++ l2)) = _
      cases hstep : consumerStep file_size (.record st r) s with
      | error e => simp [consumerRun, hstep, Except.bind]
      | ok s1 => simp [consumerRun, hstep, Except.bind, ih s1 hrest]
    | schema st fl =>
      show (consumerStep file_size (.schema st fl) s).bind
          (consumerRun file_size (rest ++ l2)) = _
      cases hstep : consumerStep file_size (.schema st fl) s with
      | error e => simp [consumerRun, hstep, Except.bind]
      | ok s1 => simp [consumerRun, hstep, Except.bind, ih s1 hrest]

/-- Claim C8: when end of input arrives while the consumer's current stream
is null (no record ever arrived) or while its buffer is missing (it was just
emptied by a size-threshold flush), the unconditional
`records.pop(current_stream_name)` in the `EOF` branch raises `KeyError`:
the run terminates abnormally and no checkpoint is written. -/
theorem eof_flush_keyerror (msgs : List InMsg) (file_size : Int)
    (st : Option JsonVal) (body : List (QMsg FlatRow)) (s : CState FlatRow)
    (hp : producer msgs = .ok (st, body ++ [QMsg.eof]))
    (hne : hasEofQ body = false)
    (hb : consumerRun file_size body initC = .ok s)
    (hmiss : ∀ a, s.current_stream_name = some a →
      dictGet a s.records = none) :
    runTarget msgs file_size = .error (.consumerErr "KeyError") ∧
    runStdout msgs file_size = [] := by
  have heof : consumerRun file_size [QMsg.eof] s = .error "KeyError" := by
    show consumerStep file_size .eof s = .error "KeyError"
    cases hcur : s.current_stream_name with
    | none => simp [consumerStep, hcur]
    | some a =>
      have hget := hmiss a hcur
      simp [consumerStep, hcur, dictPop, hget]
  have hrunc : consumerRun file_size (body ++ [QMsg.eof]) initC =
      .error "KeyError" := by
    rw [consumerRun_append file_size body [QMsg.eof] initC hne, hb]
    exact heof
  constructor
  · unfold runTarget
    simp only [hp, hrunc]
  · unfold runStdout runTarget
    simp only [hp, hrunc]

/-! ## Claim C1 -/

theorem mem_flatten_schema_of_get (sep parent x k : String)
    (node : SchemaNode) : ∀ props : SchemaProps,
    schemaGet k props = some node →
    x ∈ (if (node.typesD).contains "object"
         then flatten_schema sep node.properties (new_key parent sep k)
         else [new_key parent sep k]) →
    x ∈ flatten_schema sep props parent
  | .nil, hget, _ => by simp [schemaGet] at hget
  | .cons k' n' rest, hget, hx => by
    by_cases hk : k' = k
    · have hnode : n' = node := by simpa [schemaGet, hk] using hget
      subst hk
      subst hnode
      obtain ⟨ts, ps⟩ := n'
      show x ∈ (if (ts.getD []).contains "object"
          then flatten_schema sep ps (new_key parent sep k')
          else [new_key parent sep k']) ++ flatten_schema sep rest parent
      refine List.mem_append_left _ ?_
      simpa [SchemaNode.typesD, SchemaNode.properties] using hx
    · have hget' : schemaGet k rest = some node := by
        simpa [schemaGet, hk] using hget
      obtain ⟨ts, ps⟩ := n'
      show x ∈ (if (ts.getD []).contains "object"
          then flatten_schema sep ps (new_key parent sep k')
          else [new_key parent sep k']) ++ flatten_schema sep rest parent
      exact List.mem_append_right _
        (mem_flatten_schema_of_get sep parent x k node rest hget' hx)

theorem flatten_keys_subset : ∀ (kvs : JsonMembers) (sep parent : String)
    (props : SchemaProps) (items : List (String × JsonVal)),
    structConforms kvs props = true →
    flattenItems sep kvs parent = .ok items →
    ∀ x ∈ items.map Prod.fst, x ∈ flatten_schema sep props parent
  | .nil, sep, parent, props, items, hc, hf, x, hx => by
    simp only [flattenItems] at hf
    have hit : items = [] := by simpa using hf.symm
    subst hit
    simp at hx
  | .cons k v rest, sep, parent, props, items, hc, hf, x, hx => by
    simp only [structConforms, Bool.and_eq_true] at hc
    obtain ⟨hc1, hc2⟩ := hc
    cases hget : schemaGet k props with
    | none => rw [hget] at hc1; simp at hc1
    | some node =>
      rw [hget] at hc1
      simp only [flattenItems] at hf
      cases hhead : flattenVal sep (new_key parent sep k) v with
      | error e => rw [hhead] at hf; simp [Except.bind] at hf
      | ok head =>
        rw [hhead] at hf
        cases htail : flattenItems sep rest parent with
        | error e => rw [htail] at hf; simp [Except.bind, Except.map] at hf
        | ok tail =>
          rw [htail] at hf
          have hitems : items = head ++ tail := by
            have := hf
            simp [Except.bind, Except.map] at this
            exact this.symm
          subst hitems
          rw [List.map_append] at hx
          rcases List.mem_append.mp hx with hxh | hxt
          · cases v with
            | vObj kvs' =>
              simp only [structConformsVal, Bool.and_eq_true] at hc1
              obtain ⟨hobj, hconf'⟩ := hc1
              have hhead' : flattenItems sep kvs' (new_key parent sep k) =
                  .ok head := hhead
              have hsub := flatten_keys_subset kvs' sep (new_key parent sep k)
                node.properties head hconf' hhead' x hxh
              exact mem_flatten_schema_of_get sep parent x k node props hget
                ((if_pos hobj).symm ▸ hsub)
            | vList xs => simp [flattenVal] at hhead
            | vInt n =>
              have hhd : head = [(new_key parent sep k, JsonVal.vInt n)] := by
                simpa [flattenVal] using hhead.symm
              subst hhd
              simp at hxh
              simp only [structConformsVal, Bool.not_eq_true'] at hc1
              refine mem_flatten_schema_of_get sep parent x k node props hget ?_
              rw [if_neg (by rw [hc1]; simp)]
              simp [hxh]
            | vStr s =>
              have hhd : head = [(new_key parent sep k, JsonVal.vStr s)] := by
                simpa [flattenVal] using hhead.symm
              subst hhd
              simp at hxh
              simp only [structConformsVal, Bool.not_eq_true'] at hc1
              refine mem_flatten_schema_of_get sep parent x k node props hget ?_
              rw [if_neg (by rw [hc1]; simp)]
              simp [hxh]
            | vBool b =>
              have hhd : head = [(new_key parent sep k, JsonVal.vBool b)] := by
                simpa [flattenVal] using hhead.symm
              subst hhd
              simp at hxh
              simp only [structConformsVal, Bool.not_eq_true'] at hc1
              refine mem_flatten_schema_of_get sep parent x k node props hget ?_
              rw [if_neg (by rw [hc1]; simp)]
              simp [hxh]
            | vNull =>
              have hhd : head = [(new_key parent sep k, JsonVal.vNull)] := by
                simpa [flattenVal] using hhead.symm
              subst hhd
              simp at hxh
              simp only [structConformsVal, Bool.not_eq_true'] at hc1
              refine mem_flatten_schema_of_get sep parent x k node props hget ?_
              rw [if_neg (by rw [hc1]; simp)]
              simp [hxh]
          · exact flatten_keys_subset rest sep parent props tail hc2 htail x hxt
termination_by kvs => sizeOf kvs

/-- Claim C1 counterexample: the record `{"key_2": null}` is accepted by the
Draft 4 validator for a schema whose `key_2` has type `["null", "object"]`,
yet its flattened key `key_2` is not among the flattened schema keys
(`flatten_schema` descends into the object-typed node unconditionally while
`flatten` keeps the non-mapping value as a leaf). -/
theorem flatten_schema_key_consistency_cex :
    draft4Valid c1Root (.vObj c1Record) = true ∧
    flatten c1Record = .ok [("key_2", JsonVal.vNull)] ∧
    flatten_schema "__" c1Props "" = ["key_2__key_3"] ∧
    ¬ "key_2" ∈ flatten_schema "__" c1Props "" :=
  ⟨rfl, rfl, rfl, by decide⟩

/-- Claim C1 as amended: for every record that structurally conforms to the
stream's schema properties (each key declared, a mapping value exactly at
the object-typed nodes), the key set of `flatten` (when it succeeds) is a
subset of the `flatten_schema` key set, for any common separator. -/
theorem flatten_schema_key_consistency (sep : String) (R : JsonMembers)
    (props : SchemaProps) (fr : List (String × JsonVal))
    (hc : structConforms R props = true)
    (hf : flatten R "" sep = .ok fr) :
    ∀ x ∈ fr.map Prod.fst, x ∈ flatten_schema sep props "" := by
  intro x hx
  unfold flatten at hf
  cases hitems : flattenItems sep R "" with
  | error e => rw [hitems] at hf; simp [Except.map] at hf
  | ok items =>
    rw [hitems] at hf
    have hfr : fr = pyDict items := by
      have := hf
      simp [Except.map] at this
      exact this.symm
    subst hfr
    exact flatten_keys_subset R sep "" props items hc hitems x
      (mem_keys_pyDict items x hx)

/-- Witness for C1 (amended): a conforming record whose object-typed member
holds a mapping has all flattened keys inside the flattened schema keys. -/
theorem flatten_schema_key_consistency_witness :
    structConforms c1GoodRecord c1Props = true ∧
    flatten c1GoodRecord "" "__" = .ok [("key_2__key_3", JsonVal.vStr "x")] ∧
    (∀ x ∈ ([("key_2__key_3", JsonVal.vStr "x")] :
        List (String × JsonVal)).map Prod.fst,
      x ∈ flatten_schema "__" c1Props "") :=
  ⟨rfl, rfl,
   fun x hx => flatten_schema_key_consistency "__" c1GoodRecord c1Props
     [("key_2__key_3", JsonVal.vStr "x")] rfl rfl x hx⟩

/-- Witness for C8: with `file_size = 2`, two records for one stream are
flushed by the threshold, and the `EOF` flush then pops the missing buffer:
the run fails with `KeyError` and writes no checkpoint. -/
theorem eof_flush_keyerror_witness :
    producer c8msgs = .ok (none, c8body ++ [QMsg.eof]) ∧
    hasEofQ c8body = false ∧
    consumerRun 2 c8body initC = .ok c8state ∧
    (runTarget c8msgs 2 = .error (.consumerErr "KeyError") ∧
     runStdout c8msgs 2 = []) := by
  refine ⟨rfl, rfl, rfl, ?_⟩
  refine eof_flush_keyerror c8msgs 2 none c8body c8state rfl rfl rfl ?_
  intro a ha
  have : a = "a" := by
    simp [c8state] at ha
    exact ha.symm
  rw [this]
  rfl

end TargetParquet
